import Mathlib

/-!
Shallow embedding of the mlb-gameday-api core (Go) for specification checking.

The embedding follows `data/games.go` (the revision with `GameCache.Discover`,
`Fetch`, `GetOne`, `GetAll`, `Delete`, `Audit`, `FetchGame`, `sortGames`),
`api_data/mlb-api.go` (the upstream JSON shapes that the projection reads) and
`handlers` (the SSE `Broadcaster` and the 16-slot per-subscriber queue).

Modelling conventions:
- `time.Time` is an `Int` of nanoseconds since the epoch; `time.Duration`
  constants are `Int` nanoseconds (`second`, `minute`, `hour` below).
  `time.Since t` at instant `now` is `now - t`, `time.Until t` is `t - now`.
- `uint8` / `uint32` quantities are `Nat`s; wrap-around is written explicitly
  with `% 256` / `% 2 ^ 32` at the operations where Go would overflow.
- `sync.Map` is an association list `List (Nat × Game)`; the single-threaded
  semantics of each exported cache method is modelled (per-key operations are
  linearizable in Go, and every claim below is about one sequential history).
- HTTP I/O is an oracle `upstream : String → Option LiveGame`: `none` models a
  transport or decode error of the request for that link, `some lg` a decoded
  body. `time.Now()` is passed in as the parameter `now`.
- a fallible Go call is an `Except`; a Go runtime panic (nil-pointer
  dereference of a missing `players` key in `FetchGame`) is the `none` of an
  enclosing `Option`.
-/

namespace Gameday

/-- One nanosecond, the unit of our `Int` time scale. -/
def nanosecond : Int := 1

/-- `time.Second` in nanoseconds. -/
def second : Int := 1000000000

/-- `time.Minute` in nanoseconds. -/
def minute : Int := 60 * second

/-- `time.Hour` in nanoseconds. -/
def hour : Int := 60 * minute

/-! ## Domain model (`data` package structs) -/

/-- `data.Player`. -/
structure Player where
  id : Nat
  name : String
  number : String
  deriving DecidableEq, Repr

/-- `data.Info`. -/
structure Info where
  name : String
  abbreviation : String
  league : String
  deriving DecidableEq, Repr

/-- `data.Team`. -/
structure Team where
  info : Info
  pitcher : Player
  score : Nat
  deriving DecidableEq, Repr

/-- `data.Teams`. -/
structure Teams where
  away : Team
  home : Team
  deriving DecidableEq, Repr

/-- `data.Inning`. -/
structure Inning where
  number : Nat
  top_bottom : String
  deriving DecidableEq, Repr

/-- `data.Diamond`. -/
structure Diamond where
  batter : Player
  first : Player
  second : Player
  third : Player
  deriving DecidableEq, Repr

/-- `api_data.Datetime` (only the `dateTime` field is read by the core). -/
structure Datetime where
  dateTime : Int
  deriving DecidableEq, Repr

/-- `data.Status`. -/
structure Status where
  general : String
  detailed : String
  startTime : Datetime
  deriving DecidableEq, Repr

/-- `data.State`. -/
structure State where
  teams : Teams
  inning : Inning
  diamond : Diamond
  outs : Nat
  status : Status
  deriving DecidableEq, Repr

/-- `data.Metadata`. -/
structure Metadata where
  timestamp : Int
  ready : Bool
  deriving DecidableEq, Repr

/-- `data.Game`. -/
structure Game where
  metadata : Metadata
  link : String
  id : Nat
  state : State
  deriving DecidableEq, Repr

/-- The Go zero value of `Player`. -/
def Player.zero : Player := { id := 0, name := "", number := "" }

/-- The Go zero value of `Team`. -/
def Team.zero : Team :=
  { info := { name := "", abbreviation := "", league := "" }
    pitcher := Player.zero, score := 0 }

/-- The Go zero value of `State` (all fields zero-valued). -/
def State.zero : State :=
  { teams := { away := Team.zero, home := Team.zero }
    inning := { number := 0, top_bottom := "" }
    diamond := { batter := Player.zero, first := Player.zero
                 second := Player.zero, third := Player.zero }
    outs := 0
    status := { general := "", detailed := "", startTime := { dateTime := 0 } } }

/-- The Go zero value `Game{}`, returned by the cache when a lookup fails. -/
def Game.zero : Game :=
  { metadata := { timestamp := 0, ready := false }
    link := "", id := 0, state := State.zero }

/-! ## Upstream model (`api_data` package structs, fields the projection reads) -/

/-- `api_data.PlayerNamed`, an entry of `gameData.players`. -/
structure PlayerNamed where
  id : Nat
  fullName : String
  primaryNumber : String
  deriving DecidableEq, Repr

/-- `api_data.PlayerID`. -/
structure PlayerID where
  id : Nat
  deriving DecidableEq, Repr

/-- `api_data.League`. -/
structure League where
  name : String
  deriving DecidableEq, Repr

/-- `api_data.Team2`, a team description in `gameData.teams`. -/
structure Team2 where
  name : String
  abbreviation : String
  league : League
  deriving DecidableEq, Repr

/-- `api_data.Teams2`. -/
structure Teams2 where
  away : Team2
  home : Team2
  deriving DecidableEq, Repr

/-- `api_data.ProbablePitchers`. -/
structure ProbablePitchers where
  away : PlayerID
  home : PlayerID
  deriving DecidableEq, Repr

/-- The two fields of `api_data.Status` that `FetchGame` reads. -/
structure UpstreamStatus where
  abstractGameState : String
  detailedState : String
  deriving DecidableEq, Repr

/-- `api_data.GameData`. `players` is a Go `map[string]PlayerNamed`; the
projection only ranges over its values, so it is modelled as the list of
values in range order. -/
structure GameData where
  datetime : Datetime
  status : UpstreamStatus
  teams : Teams2
  players : List PlayerNamed
  probablePitchers : ProbablePitchers
  deriving DecidableEq, Repr

/-- `api_data.Team3` (runs of one team in the linescore). -/
structure TeamRuns where
  runs : Nat
  deriving DecidableEq, Repr

/-- `api_data.Teams3`. -/
structure TeamsRuns where
  home : TeamRuns
  away : TeamRuns
  deriving DecidableEq, Repr

/-- `api_data.Defense` (fields read: `pitcher`, `team.name`). -/
structure DefenseSide where
  pitcher : PlayerID
  teamName : String
  deriving DecidableEq, Repr

/-- `api_data.Offense` (fields read by the projection). -/
structure OffenseSide where
  batter : PlayerID
  first : PlayerID
  second : PlayerID
  third : PlayerID
  pitcher : PlayerID
  deriving DecidableEq, Repr

/-- `api_data.Linescore`. -/
structure Linescore where
  currentInning : Nat
  inningHalf : String
  teams : TeamsRuns
  defense : DefenseSide
  offense : OffenseSide
  outs : Nat
  deriving DecidableEq, Repr

/-- `api_data.Decisions`. -/
structure Decisions where
  winner : PlayerID
  loser : PlayerID
  deriving DecidableEq, Repr

/-- `api_data.LiveData`. -/
structure LiveData where
  linescore : Linescore
  decisions : Decisions
  deriving DecidableEq, Repr

/-- `api_data.LiveGame`, the decoded body of a live-game response. -/
structure LiveGame where
  gamePk : Nat
  gameData : GameData
  liveData : LiveData
  deriving DecidableEq, Repr

/-! ## The `players` lookup table built by `FetchGame` -/

/-- The sentinel player that `FetchGame` seeds at key `0` of the `players`
map: `&Player{ID: 0, Name: "TBD", Number: "-1"}`. -/
def sentinelPlayer : Player := { id := 0, name := "TBD", number := "-1" }

/-- The last element of `ps` whose `id` is `i`, if any. The Go loop
`for _, p := range lg.GameData.Players` writes every player into the map, so
for a duplicated `id` the value written last wins. -/
def lastPlayerWithID (ps : List PlayerNamed) (i : Nat) : Option PlayerNamed :=
  ps.foldl (fun acc p => if p.id = i then some p else acc) none

/-- Lookup in the `players` map of `FetchGame`: seeded with
`0 ↦ sentinelPlayer`, then overwritten by every upstream player. `none`
models a missing key, whose dereference `*players[i]` panics in Go. -/
def playersGet (ps : List PlayerNamed) (i : Nat) : Option Player :=
  match lastPlayerWithID ps i with
  | some p => some { id := p.id, name := p.fullName, number := p.primaryNumber }
  | none => if i = 0 then some sentinelPlayer else none

/-- `players[0]` after the map is built. The key `0` is always present
(seeded before the loop), so this lookup is total. -/
def playersZero (ps : List PlayerNamed) : Player :=
  match lastPlayerWithID ps 0 with
  | some p => { id := p.id, name := p.fullName, number := p.primaryNumber }
  | none => sentinelPlayer

/-! ## The projection (`FetchGame` minus the HTTP round trip) -/

/-- The pitcher ids `(pitcherAwayID, pitcherHomeID)` chosen by the `switch` on
`lg.GameData.Status.AbstractGameState` in `FetchGame`. -/
def pitcherIDs (lg : LiveGame) : Nat × Nat :=
  match lg.gameData.status.abstractGameState with
  | "Preview" =>
      (lg.gameData.probablePitchers.away.id, lg.gameData.probablePitchers.home.id)
  | "Live" =>
      if lg.gameData.teams.away.name = lg.liveData.linescore.defense.teamName then
        (lg.liveData.linescore.defense.pitcher.id, lg.liveData.linescore.offense.pitcher.id)
      else
        (lg.liveData.linescore.offense.pitcher.id, lg.liveData.linescore.defense.pitcher.id)
  | "Final" =>
      if lg.liveData.linescore.teams.away.runs > lg.liveData.linescore.teams.home.runs then
        (lg.liveData.decisions.winner.id, lg.liveData.decisions.loser.id)
      else
        (lg.liveData.decisions.loser.id, lg.liveData.decisions.winner.id)
  | _ => (0, 0)

/-- The batter-display corrections that `FetchGame` applies to the freshly
assembled state `s` ("catch API quirks in batter display" and "update
information for finalized games"). -/
def correctState (ps : List PlayerNamed) (s : State) : State :=
  let s1 :=
    if s.status.general ≠ "Live" ∨
        s.outs = 3 ∨
        s.diamond.batter = s.diamond.first ∨
        s.diamond.batter = s.diamond.second ∨
        s.diamond.batter = s.diamond.third then
      { s with diamond := { s.diamond with batter := playersZero ps } }
    else s
  if s1.status.general = "Final" then
    { s1 with diamond := { s1.diamond with batter := playersZero ps }, outs := 0 }
  else s1

/-- The pure body of `FetchGame` after the live-game response has been decoded
into `lg`: build the `players` map, pick pitchers, assemble the state, apply
the batter corrections, stamp `metadata`. `none` models the Go panic on
dereferencing a missing `players` key. -/
def projectGame (lg : LiveGame) (link : String) (now : Int) : Option Game :=
  let ps := lg.gameData.players
  let pids := pitcherIDs lg
  match playersGet ps pids.2, playersGet ps pids.1,
      playersGet ps lg.liveData.linescore.offense.batter.id,
      playersGet ps lg.liveData.linescore.offense.first.id,
      playersGet ps lg.liveData.linescore.offense.second.id,
      playersGet ps lg.liveData.linescore.offense.third.id with
  | some ph, some pa, some bat, some fst, some snd, some thd =>
      let s : State :=
        { teams :=
            { away :=
                { info :=
                    { name := lg.gameData.teams.away.name
                      abbreviation := lg.gameData.teams.away.abbreviation
                      league := lg.gameData.teams.away.league.name }
                  pitcher := pa
                  score := lg.liveData.linescore.teams.away.runs }
              home :=
                { info :=
                    { name := lg.gameData.teams.home.name
                      abbreviation := lg.gameData.teams.home.abbreviation
                      league := lg.gameData.teams.home.league.name }
                  pitcher := ph
                  score := lg.liveData.linescore.teams.home.runs } }
          inning :=
            { number := lg.liveData.linescore.currentInning
              top_bottom := lg.liveData.linescore.inningHalf }
          diamond := { batter := bat, first := fst, second := snd, third := thd }
          outs := lg.liveData.linescore.outs
          status :=
            { general := lg.gameData.status.abstractGameState
              detailed := lg.gameData.status.detailedState
              startTime := lg.gameData.datetime } }
      some
        { id := lg.gamePk % 2 ^ 32
          link := link
          state := correctState ps s
          metadata := { timestamp := now, ready := true } }
  | _, _, _, _, _, _ => none

/-- `FetchGame(ctx, link)`: ask the upstream oracle for the body at `link`,
then project. Outer `none` is the Go panic inside the projection;
`Except.error ()` is the returned transport/decode error. -/
def FetchGame (upstream : String → Option LiveGame) (now : Int) (link : String) :
    Option (Except Unit Game) :=
  match upstream link with
  | none => some (Except.error ())
  | some lg => (projectGame lg link now).map Except.ok

/-! ## The game cache (`GameCache` over a `sync.Map` plus a `uint8` counter) -/

/-- `sync.Map.Load`: the value stored under `id`, scanning in list order. -/
def mapLoad (m : List (Nat × Game)) (id : Nat) : Option Game :=
  match m with
  | [] => none
  | kv :: rest => if kv.1 = id then some kv.2 else mapLoad rest id

/-- `sync.Map.Store`: replace the binding of `id` if present, else append. -/
def mapStore (m : List (Nat × Game)) (id : Nat) (g : Game) : List (Nat × Game) :=
  match m with
  | [] => [(id, g)]
  | kv :: rest => if kv.1 = id then (id, g) :: rest else kv :: mapStore rest id g

/-- `sync.Map.Delete`: remove the binding of `id` (the first, and with unique
keys the only, occurrence). -/
def mapDelete (m : List (Nat × Game)) (id : Nat) : List (Nat × Game) :=
  match m with
  | [] => []
  | kv :: rest => if kv.1 = id then rest else kv :: mapDelete rest id

/-- `data.GameCache`: the `sync.Map` of games plus the `uint8 length`
counter. The counter is kept as a `Nat`; the `uint8` wrap-around of `++` and
`--` is written explicitly in `Discover` and `Delete`. -/
structure GameCache where
  cache : List (Nat × Game)
  length : Nat
  deriving DecidableEq, Repr

/-- The error values a cache operation can surface. Go carries them as
`error` strings; only their identity matters here. -/
inductive CacheError where
  | cacheFull
  | gameNotFound
  | upstreamFailed
  deriving DecidableEq, Repr

/-- The unready placeholder that `Discover` stores: zero-valued `state`,
`Ready: false`, fresh timestamp, the given link and id. -/
def placeholderGame (now : Int) (id : Nat) (link : String) : Game :=
  { metadata := { timestamp := now, ready := false }
    link := link, id := id, state := State.zero }

/-- `GameCache.Discover(id, link)`: insert an unready placeholder unless the
id is present or the cache is full. Result is `(new cache, bool, error)`. -/
def GameCache.Discover (gc : GameCache) (now : Int) (id : Nat) (link : String) :
    GameCache × Bool × Option CacheError :=
  match mapLoad gc.cache id with
  | some _ => (gc, false, none)
  | none =>
    if gc.length = 255 then
      (gc, false, some CacheError.cacheFull)
    else
      ({ cache := mapStore gc.cache id (placeholderGame now id link)
         length := (gc.length + 1) % 256 },
        true, none)

/-- `GameCache.GetLink(id)`. -/
def GameCache.GetLink (gc : GameCache) (id : Nat) : Except CacheError String :=
  match mapLoad gc.cache id with
  | none => Except.error CacheError.gameNotFound
  | some game => Except.ok game.link

/-- `GameCache.Fetch(ctx, id)`: refresh the entry from upstream, store the
new record only when it differs from the stored one (`reflect.DeepEqual`),
report whether it changed. `none` is the projection panic; `Except.error` the
returned Go error (cache untouched in that case). -/
def GameCache.Fetch (gc : GameCache) (upstream : String → Option LiveGame)
    (now : Int) (id : Nat) : Option (GameCache × Except Unit Bool) :=
  match gc.GetLink id with
  | Except.error _ => some (gc, Except.error ())
  | Except.ok link =>
    match FetchGame upstream now link with
    | none => none
    | some (Except.error _) => some (gc, Except.error ())
    | some (Except.ok newGame) =>
      match mapLoad gc.cache id with
      | some oldGame =>
        if oldGame = newGame then
          some (gc, Except.ok false)
        else
          some ({ gc with cache := mapStore gc.cache id newGame }, Except.ok true)
      | none =>
        some ({ gc with cache := mapStore gc.cache id newGame }, Except.ok true)

/-- `GameCache.GetOne(ctx, id)`: return a ready entry, synchronously `Fetch`
an unready one first, `(Game{}, false)` when absent or the fetch did not
produce a changed, loadable record. -/
def GameCache.GetOne (gc : GameCache) (upstream : String → Option LiveGame)
    (now : Int) (id : Nat) : Option (GameCache × Game × Bool) :=
  match mapLoad gc.cache id with
  | none => some (gc, Game.zero, false)
  | some game =>
    if game.metadata.ready then
      some (gc, game, true)
    else
      match gc.Fetch upstream now id with
      | none => none
      | some (gc1, Except.error _) => some (gc1, Game.zero, false)
      | some (gc1, Except.ok updated) =>
        if !updated then
          some (gc1, Game.zero, false)
        else
          match mapLoad gc1.cache id with
          | some g1 => some (gc1, g1, true)
          | none => some (gc1, Game.zero, false)

/-- `GameCache.GetAll()`: allocate a slice of `gc.length` pointers, fill it
with the ready entries in range order, return the filled parts. `none` models
the index-out-of-range panic when more ready entries exist than `gc.length`
slots (impossible while the length invariant holds). -/
def GameCache.GetAll (gc : GameCache) : Option (List Game) :=
  if gc.length > 0 then
    let ready := (gc.cache.map Prod.snd).filter (fun g => g.metadata.ready)
    if ready.length ≤ gc.length then some ready else none
  else
    some []

/-- `GameCache.Delete(id)`: remove the entry and decrement the counter only
when the id is present. -/
def GameCache.Delete (gc : GameCache) (id : Nat) : GameCache :=
  match mapLoad gc.cache id with
  | none => gc
  | some _ =>
    { cache := mapDelete gc.cache id, length := (gc.length + 255) % 256 }

/-- One step of the `Audit` range callback on the snapshot entry `(id, game)`:
refresh stale Live/Preview/Final entries, else prune dead ones, else leave the
entry alone. The accumulator carries the evolving cache and the `updated`,
`removed`, `failed` id lists. -/
def auditStep (upstream : String → Option LiveGame) (now : Int)
    (acc : GameCache × List Nat × List Nat × List Nat) (kv : Nat × Game) :
    Option (GameCache × List Nat × List Nat × List Nat) :=
  let (gc, updated, removed, failed) := acc
  let id := kv.1
  let game := kv.2
  if (game.state.status.general = "Live" ∧ now - game.metadata.timestamp > 5 * second) ∨
      (game.state.status.general = "Preview" ∧ now - game.metadata.timestamp > 15 * minute) ∨
      (game.state.status.general = "Final" ∧ now - game.metadata.timestamp > 30 * minute) then
    match gc.Fetch upstream now id with
    | none => none
    | some (gc1, Except.error _) => some (gc1, updated, removed, failed ++ [id])
    | some (gc1, Except.ok dataChanged) =>
      if dataChanged then some (gc1, updated ++ [id], removed, failed)
      else some (gc1, updated, removed, failed)
  else if (game.state.status.general = "Final" ∧
        now - game.state.status.startTime.dateTime > 15 * hour) ∨
      (game.state.status.general = "Preview" ∧
        game.metadata.timestamp - now > 24 * hour) then
    some (gc.Delete id, updated, removed ++ [id], failed)
  else
    some (gc, updated, removed, failed)

/-- `GameCache.Audit(ctx)`: sweep the entries present at the start of the
range, threading the cache through each step; return the final cache and the
`(updated, removed, failed)` change set. -/
def GameCache.Audit (gc : GameCache) (upstream : String → Option LiveGame)
    (now : Int) : Option (GameCache × List Nat × List Nat × List Nat) :=
  gc.cache.foldlM (auditStep upstream now) (gc, [], [], [])

/-! ## The SSE broadcaster (`handlers` package) -/

/-- `handlers.Update`. -/
structure Update where
  event : String
  data : String
  deriving DecidableEq, Repr

/-- The capacity of every per-subscriber queue:
`userChannel := make(chan *Update, 16)` in `handlers.GetUpdates`. -/
def queueCapacity : Nat := 16

/-- `handlers.Broadcaster`: the subscriber map (client id to buffered queue,
front of the list is the oldest message) and the atomic `Count`. -/
structure Broadcaster where
  clients : List (Nat × List Update)
  count : Int
  deriving DecidableEq, Repr

/-- `Broadcaster.Broadcast(message)`: non-blocking send to every subscriber
in range order; a send succeeds exactly when the buffer has a free slot.
Returns the broadcaster and the number of successful sends. -/
def Broadcaster.Broadcast (b : Broadcaster) (msg : Update) : Broadcaster × Nat :=
  let step := fun (acc : List (Nat × List Update) × Nat) (c : Nat × List Update) =>
    if c.2.length < queueCapacity then
      (acc.1 ++ [(c.1, c.2 ++ [msg])], acc.2 + 1)
    else
      (acc.1 ++ [c], acc.2)
  let r := b.clients.foldl step ([], 0)
  ({ b with clients := r.1 }, r.2)

/-! ## The initial-snapshot sort (`sortGames`) -/

/-- The `statusOrder` map of `sortGames`; a Go map lookup of a missing key
yields the zero value `0`. -/
def statusOrder (s : String) : Int :=
  if s = "Live" then 0
  else if s = "Final" then 1
  else if s = "Preview" then 2
  else 0

/-- The comparator closure passed to `sort.Slice` in `sortGames`. -/
def gamesLess (g1 g2 : Game) : Bool :=
  let statusComp := statusOrder g1.state.status.general - statusOrder g2.state.status.general
  if statusComp ≠ 0 then
    decide (statusComp < 0)
  else
    decide (g1.state.status.startTime.dateTime < g2.state.status.startTime.dateTime)

/-- The documented contract of `sort.Slice(games, less)`: the output is a
permutation of the input that is sorted with respect to `less` (no later
element compares less than an earlier one). The concrete algorithm is
internal to the Go standard library and explicitly not guaranteed to be
stable, so `sortGames` is embedded by this contract. -/
def sortGamesPost (input output : List Game) : Prop :=
  output.Perm input ∧ output.Pairwise (fun a b => gamesLess b a = false)

/-- Modelled from the spec: stable insertion of a game into an already
sorted list, placing it after every earlier game that is not strictly
greater. Together with `stableSortGamesSpec` this is the spec's "stable sort"
by status then start time, used only to compare against the code's sort. -/
def insertSorted (x : Game) : List Game → List Game
  | [] => [x]
  | y :: t => if gamesLess x y then x :: y :: t else y :: insertSorted x t

/-- Modelled from the spec: the stable sort by `gamesLess` that the spec's
"Sort order for initial snapshot … Stable." sentence describes. -/
def stableSortGamesSpec (l : List Game) : List Game :=
  l.foldl (fun acc x => insertSorted x acc) []

/-! ## Concrete fixtures used by counterexamples and witnesses -/

/-- A minimal decoded live-game body: a `Preview` game in which every player
slot is the empty id `0`, so every lookup resolves to the sentinel. -/
def previewBody : LiveGame :=
  { gamePk := 1
    gameData :=
      { datetime := { dateTime := 0 }
        status := { abstractGameState := "Preview", detailedState := "Scheduled" }
        teams :=
          { away := { name := "Mets", abbreviation := "NYM", league := { name := "NL" } }
            home := { name := "Yankees", abbreviation := "NYY", league := { name := "AL" } } }
        players := []
        probablePitchers := { away := { id := 0 }, home := { id := 0 } } }
    liveData :=
      { linescore :=
          { currentInning := 0
            inningHalf := ""
            teams := { home := { runs := 0 }, away := { runs := 0 } }
            defense := { pitcher := { id := 0 }, teamName := "" }
            offense :=
              { batter := { id := 0 }, first := { id := 0 }, second := { id := 0 }
                third := { id := 0 }, pitcher := { id := 0 } }
            outs := 0 }
        decisions := { winner := { id := 0 }, loser := { id := 0 } } } }

/-- The refresh link of the fixture game. -/
def fixtureLink : String := "/game/1/feed/live"

/-- An upstream oracle that serves `previewBody` at `fixtureLink`. -/
def fixtureUpstream : String → Option LiveGame :=
  fun l => if l = fixtureLink then some previewBody else none

/-- The record `FetchGame` projects from `previewBody` at instant `0`. -/
def storedPreviewGame : Game :=
  (projectGame previewBody fixtureLink 0).getD Game.zero

/-- A one-entry cache holding `storedPreviewGame` under id `1`. -/
def previewCache : GameCache :=
  { cache := [(1, storedPreviewGame)], length := 1 }

end Gameday

namespace Gameday

/-- C1. The claim says `Fetch` reports *unchanged* and keeps the stored record
when upstream data is identical except for `metadata.timestamp`. On the code,
`FetchGame` stamps `time.Now()` into the new record *before* the
`reflect.DeepEqual` comparison, so the comparison sees the fresh timestamp:
at instant `second` the projected record agrees with the stored one in every
field except `metadata.timestamp`, yet `Fetch` returns `true` and overwrites
the stored record, advancing its timestamp from `0` to `second`. -/
theorem fetch_false_positive_on_fresh_timestamp :
    (previewCache.Fetch fixtureUpstream second 1).map (fun p => p.2) =
      some (Except.ok true) ∧
    (previewCache.Fetch fixtureUpstream second 1).map
        (fun p => (mapLoad p.1.cache 1).map (fun g => g.metadata.timestamp)) =
      some (some second) ∧
    (projectGame previewBody fixtureLink second).map
        (fun g => (g.link, g.id, g.state, g.metadata.ready)) =
      some (storedPreviewGame.link, storedPreviewGame.id,
        storedPreviewGame.state, storedPreviewGame.metadata.ready) ∧
    (projectGame previewBody fixtureLink second).map (fun g => g.metadata.timestamp) ≠
      some storedPreviewGame.metadata.timestamp := by
  refine ⟨by rfl, by rfl, by rfl, by decide⟩

/-- A ready `Preview` entry whose `start_time` lies 25 hours in the future
while its `metadata.timestamp` is the current instant `0`. -/
def postponedGame : Game :=
  { metadata := { timestamp := 0, ready := true }
    link := fixtureLink
    id := 7
    state :=
      { State.zero with
          status :=
            { general := "Preview", detailed := "Scheduled"
              startTime := { dateTime := 25 * hour } } } }

/-- A one-entry cache holding `postponedGame` under id `7`. -/
def postponedCache : GameCache :=
  { cache := [(7, postponedGame)], length := 1 }

/-- C2. The claim (and the code's own comment "prune games that don't start
for 24 hours (postponed)") says a `Preview` entry whose `start_time` is more
than 24 hours in the future is deleted and recorded in `removed`. The code
instead tests `time.Until(game.Metadata.Timestamp) > 24h` — the metadata
timestamp, which is always a past write instant, not the start time — so the
postponed entry is left untouched: `Audit` returns empty change sets and the
entry survives, even though its start time is 25 hours away. -/
theorem audit_ignores_future_start_preview :
    postponedCache.Audit (fun _ => none) 0 =
      some (postponedCache, [], [], []) ∧
    postponedGame.state.status.startTime.dateTime - 0 > 24 * hour := by
  refine ⟨by decide, by decide⟩

/-! ## Association-list lemmas for the cache map -/

theorem mapLoad_mapStore_self (m : List (Nat × Game)) (id : Nat) (g : Game) :
    mapLoad (mapStore m id g) id = some g := by
  induction m with
  | nil => simp [mapStore, mapLoad]
  | cons kv rest ih =>
    by_cases h : kv.1 = id
    · simp [mapStore, mapLoad, h]
    · simp only [mapStore, mapLoad, h, if_false]
      exact ih

theorem mapLoad_mapStore_ne (m : List (Nat × Game)) (id k : Nat) (g : Game)
    (hk : k ≠ id) : mapLoad (mapStore m id g) k = mapLoad m k := by
  induction m with
  | nil =>
    simp only [mapStore, mapLoad]
    rw [if_neg (fun h : id = k => hk h.symm)]
  | cons kv rest ih =>
    by_cases h : kv.1 = id
    · simp only [mapStore, mapLoad, h, if_true]
      rw [if_neg (fun h2 : id = k => hk h2.symm)]
      rw [if_neg (fun h2 : id = k => hk h2.symm)]
    · simp only [mapStore, mapLoad, h, if_false]
      by_cases h2 : kv.1 = k
      · simp [h2]
      · simp only [h2, if_false]
        exact ih

theorem mapLoad_mapDelete_ne (m : List (Nat × Game)) (id k : Nat)
    (hk : k ≠ id) : mapLoad (mapDelete m id) k = mapLoad m k := by
  induction m with
  | nil => simp [mapDelete, mapLoad]
  | cons kv rest ih =>
    by_cases h : kv.1 = id
    · simp only [mapDelete, mapLoad, h, if_true]
      rw [if_neg (fun h2 : id = k => hk h2.symm)]
    · simp only [mapDelete, mapLoad, h, if_false]
      by_cases h2 : kv.1 = k
      · simp [h2]
      · simp only [h2, if_false]
        exact ih

theorem mapDelete_of_absent (m : List (Nat × Game)) (id : Nat)
    (h : mapLoad m id = none) : mapDelete m id = m := by
  induction m with
  | nil => rfl
  | cons kv rest ih =>
    simp only [mapLoad] at h
    by_cases hkv : kv.1 = id
    · simp [hkv] at h
    · simp only [hkv, if_false] at h
      simp only [mapDelete, hkv, if_false]
      rw [ih h]

theorem length_mapStore_present (m : List (Nat × Game)) (id : Nat) (g g0 : Game)
    (h : mapLoad m id = some g0) : (mapStore m id g).length = m.length := by
  induction m with
  | nil => simp [mapLoad] at h
  | cons kv rest ih =>
    simp only [mapLoad] at h
    by_cases hkv : kv.1 = id
    · simp [mapStore, hkv]
    · simp only [hkv, if_false] at h
      simp only [mapStore, hkv, if_false, List.length_cons]
      rw [ih h]

theorem length_mapStore_absent (m : List (Nat × Game)) (id : Nat) (g : Game)
    (h : mapLoad m id = none) : (mapStore m id g).length = m.length + 1 := by
  induction m with
  | nil => rfl
  | cons kv rest ih =>
    simp only [mapLoad] at h
    by_cases hkv : kv.1 = id
    · simp [hkv] at h
    · simp only [hkv, if_false] at h
      simp only [mapStore, hkv, if_false, List.length_cons]
      rw [ih h]

theorem length_mapDelete_present (m : List (Nat × Game)) (id : Nat) (g0 : Game)
    (h : mapLoad m id = some g0) : (mapDelete m id).length + 1 = m.length := by
  induction m with
  | nil => simp [mapLoad] at h
  | cons kv rest ih =>
    simp only [mapLoad] at h
    by_cases hkv : kv.1 = id
    · simp [mapDelete, hkv]
    · simp only [hkv, if_false] at h
      simp only [mapDelete, hkv, if_false, List.length_cons]
      rw [ih h]

theorem keys_mapStore_present (m : List (Nat × Game)) (id : Nat) (g g0 : Game)
    (h : mapLoad m id = some g0) :
    (mapStore m id g).map Prod.fst = m.map Prod.fst := by
  induction m with
  | nil => simp [mapLoad] at h
  | cons kv rest ih =>
    simp only [mapLoad] at h
    by_cases hkv : kv.1 = id
    · simp [mapStore, hkv]
    · simp only [hkv, if_false] at h
      simp only [mapStore, hkv, if_false, List.map_cons]
      rw [ih h]

theorem keys_mapStore_absent (m : List (Nat × Game)) (id : Nat) (g : Game)
    (h : mapLoad m id = none) :
    (mapStore m id g).map Prod.fst = m.map Prod.fst ++ [id] := by
  induction m with
  | nil => rfl
  | cons kv rest ih =>
    simp only [mapLoad] at h
    by_cases hkv : kv.1 = id
    · simp [hkv] at h
    · simp only [hkv, if_false] at h
      simp only [mapStore, hkv, if_false, List.map_cons, List.cons_append]
      rw [ih h]

theorem mapDelete_sublist (m : List (Nat × Game)) (id : Nat) :
    (mapDelete m id).Sublist m := by
  induction m with
  | nil => simp [mapDelete]
  | cons kv rest ih =>
    by_cases hkv : kv.1 = id
    · simp only [mapDelete, hkv, if_true]
      exact List.sublist_cons_self kv rest
    · simp only [mapDelete, hkv, if_false]
      exact ih.cons₂ kv

theorem mapLoad_eq_none_of_not_mem_keys (m : List (Nat × Game)) (id : Nat)
    (h : id ∉ m.map Prod.fst) : mapLoad m id = none := by
  induction m with
  | nil => rfl
  | cons kv rest ih =>
    simp only [List.map_cons, List.mem_cons, not_or] at h
    simp only [mapLoad]
    rw [if_neg (fun hh : kv.1 = id => h.1 hh.symm)]
    exact ih h.2

theorem mem_keys_of_mapLoad (m : List (Nat × Game)) (id : Nat) (g : Game)
    (h : mapLoad m id = some g) : id ∈ m.map Prod.fst := by
  induction m with
  | nil => simp [mapLoad] at h
  | cons kv rest ih =>
    simp only [mapLoad] at h
    by_cases hkv : kv.1 = id
    · simp [hkv]
    · simp only [hkv, if_false] at h
      simp only [List.map_cons, List.mem_cons]
      exact Or.inr (ih h)

theorem mapLoad_of_mem_nodup (m : List (Nat × Game)) (id : Nat) (g : Game)
    (hnodup : (m.map Prod.fst).Nodup) (hmem : (id, g) ∈ m) :
    mapLoad m id = some g := by
  induction m with
  | nil => simp at hmem
  | cons kv rest ih =>
    simp only [List.map_cons, List.nodup_cons] at hnodup
    rcases List.mem_cons.mp hmem with h | h
    · subst h
      simp [mapLoad]
    · have hne : kv.1 ≠ id := by
        intro he
        exact hnodup.1 (he ▸ (List.mem_map.mpr ⟨(id, g), h, rfl⟩))
      simp only [mapLoad, hne, if_false]
      exact ih hnodup.2 h

/-! ## Inversion and shape lemmas for the cache operations -/

theorem projectGame_fields (lg : LiveGame) (link : String) (now : Int) (g : Game)
    (h : projectGame lg link now = some g) :
    g.link = link ∧ g.metadata.ready = true ∧ g.metadata.timestamp = now := by
  simp only [projectGame] at h
  split at h
  · cases h
    exact ⟨rfl, rfl, rfl⟩
  · exact Option.noConfusion h

theorem GetLink_ok_inv (gc : GameCache) (id : Nat) (link : String)
    (h : gc.GetLink id = Except.ok link) :
    ∃ g0, mapLoad gc.cache id = some g0 ∧ link = g0.link := by
  unfold GameCache.GetLink at h
  cases hl : mapLoad gc.cache id with
  | none => rw [hl] at h; cases h
  | some g0 =>
    rw [hl] at h
    cases h
    exact ⟨g0, rfl, rfl⟩

theorem FetchGame_ok_inv (upstream : String → Option LiveGame) (now : Int)
    (link : String) (ng : Game)
    (h : FetchGame upstream now link = some (Except.ok ng)) :
    ng.link = link ∧ ng.metadata.ready = true ∧ ng.metadata.timestamp = now := by
  unfold FetchGame at h
  cases hu : upstream link with
  | none => rw [hu] at h; dsimp only at h; simp at h
  | some lg =>
    rw [hu] at h
    dsimp only at h
    cases hp : projectGame lg link now with
    | none => rw [hp] at h; simp at h
    | some g2 =>
      rw [hp] at h
      dsimp only [Option.map] at h
      cases h
      exact projectGame_fields _ _ _ _ hp

theorem Fetch_spec (gc : GameCache) (upstream : String → Option LiveGame)
    (now : Int) (id : Nat) (gc1 : GameCache) (r : Except Unit Bool)
    (h : gc.Fetch upstream now id = some (gc1, r)) :
    gc1.length = gc.length ∧
    (gc1 = gc ∨
      ∃ g0 ng, mapLoad gc.cache id = some g0 ∧ ng.link = g0.link ∧
        ng.metadata.ready = true ∧ r = Except.ok true ∧
        gc1.cache = mapStore gc.cache id ng) := by
  unfold GameCache.Fetch at h
  cases hlink : gc.GetLink id with
  | error e =>
    rw [hlink] at h
    dsimp only at h
    cases h
    exact ⟨rfl, Or.inl rfl⟩
  | ok link =>
    rw [hlink] at h
    dsimp only at h
    obtain ⟨g0, hg0, hlinkeq⟩ := GetLink_ok_inv gc id link hlink
    cases hfg : FetchGame upstream now link with
    | none => rw [hfg] at h; exact Option.noConfusion h
    | some res =>
      rw [hfg] at h
      cases res with
      | error e =>
        dsimp only at h
        cases h
        exact ⟨rfl, Or.inl rfl⟩
      | ok ng =>
        obtain ⟨hngl, hngr, hngt⟩ := FetchGame_ok_inv upstream now link ng hfg
        dsimp only at h
        rw [hg0] at h
        dsimp only at h
        by_cases heq : g0 = ng
        · rw [if_pos heq] at h
          cases h
          exact ⟨rfl, Or.inl rfl⟩
        · rw [if_neg heq] at h
          cases h
          refine ⟨rfl, Or.inr ⟨g0, ng, hg0, ?_, hngr, rfl, rfl⟩⟩
          rw [hngl, hlinkeq]

theorem exists_mapLoad_of_mem_keys (m : List (Nat × Game)) (id : Nat)
    (h : id ∈ m.map Prod.fst) : ∃ g, mapLoad m id = some g := by
  induction m with
  | nil => simp at h
  | cons kv rest ih =>
    by_cases hkv : kv.1 = id
    · exact ⟨kv.2, by simp [mapLoad, hkv]⟩
    · simp only [List.map_cons, List.mem_cons] at h
      rcases h with h | h
      · exact absurd h.symm hkv
      · obtain ⟨g, hg⟩ := ih h
        exact ⟨g, by simp [mapLoad, hkv, hg]⟩

/-- Well-formedness of the cache: unique keys, the `length` counter agrees
with the number of stored entries, and the counter is within the `uint8`
capacity. Holds for the empty cache and is preserved by every operation
(`length_tracks_size` below). -/
def WF (gc : GameCache) : Prop :=
  (gc.cache.map Prod.fst).Nodup ∧ gc.length = gc.cache.length ∧ gc.length ≤ 255

instance (gc : GameCache) : Decidable (WF gc) := by
  unfold WF; infer_instance

/-- C3. Capacity: with the counter equal to the store size, `Discover` of an
absent id on a cache of size 255 fails with the cache-full error and returns
the cache exactly unchanged; and in every case `Discover` keeps the store
within 255 entries and preserves every existing entry (no displacement). -/
theorem discover_capacity (gc : GameCache) (now : Int) (id : Nat) (link : String)
    (hinv : gc.length = gc.cache.length) :
    (mapLoad gc.cache id = none → gc.cache.length = 255 →
      gc.Discover now id link = (gc, false, some CacheError.cacheFull)) ∧
    (gc.cache.length ≤ 255 →
      (gc.Discover now id link).1.cache.length ≤ 255 ∧
      ∀ k g, mapLoad gc.cache k = some g →
        mapLoad (gc.Discover now id link).1.cache k = some g) := by
  constructor
  · intro habs hfull
    unfold GameCache.Discover
    rw [habs]
    dsimp only
    rw [if_pos (by omega : gc.length = 255)]
  · intro hbound
    unfold GameCache.Discover
    cases hload : mapLoad gc.cache id with
    | some g0 =>
      dsimp only
      exact ⟨hbound, fun k g hk => hk⟩
    | none =>
      dsimp only
      by_cases hfull : gc.length = 255
      · rw [if_pos hfull]
        exact ⟨hbound, fun k g hk => hk⟩
      · rw [if_neg hfull]
        have h1 := length_mapStore_absent gc.cache id (placeholderGame now id link) hload
        constructor
        · dsimp only
          omega
        · intro k g hk
          dsimp only
          have hne : k ≠ id := by
            intro he
            rw [he, hload] at hk
            exact Option.noConfusion hk
          rw [mapLoad_mapStore_ne _ _ _ _ hne]
          exact hk

/-- The full cache used to witness `discover_capacity`: 255 entries under
keys `0..254`, with the counter at `255`. -/
def fullCache : GameCache :=
  { cache := (List.range 255).map (fun i => (i, Game.zero)), length := 255 }

set_option maxRecDepth 40000 in
/-- Witness for C3: discovering the absent id `999` on the full 255-entry
cache fails with the cache-full error and leaves the cache unchanged. -/
theorem discover_capacity_witness :
    fullCache.Discover 0 999 "/game/999/feed/live" =
      (fullCache, false, some CacheError.cacheFull) ∧
    fullCache.cache.length = 255 :=
  ⟨(discover_capacity fullCache 0 999 "/game/999/feed/live" (by decide)).1
      (by decide) (by decide),
    by decide⟩

/-- C9. The length counter tracks the store exactly: `Discover` increments
both counter and store size exactly when it reports a new insertion and
changes nothing otherwise; `Delete` of an absent id is a no-op and of a
present id decrements both; a completed `Fetch` never changes either; and
under the invariant `GetAll` safely returns precisely the ready entries
(its slice of `length` pointers is never overrun). -/
theorem length_tracks_size (gc : GameCache) (hwf : WF gc) :
    (∀ now id link,
      WF (gc.Discover now id link).1 ∧
      ((gc.Discover now id link).2.1 = true →
        (gc.Discover now id link).1.cache.length = gc.cache.length + 1 ∧
        (gc.Discover now id link).1.length = gc.length + 1) ∧
      ((gc.Discover now id link).2.1 = false → (gc.Discover now id link).1 = gc)) ∧
    (∀ id, mapLoad gc.cache id = none → gc.Delete id = gc) ∧
    (∀ id g, mapLoad gc.cache id = some g →
      WF (gc.Delete id) ∧ (gc.Delete id).cache.length + 1 = gc.cache.length ∧
      (gc.Delete id).length + 1 = gc.length) ∧
    (∀ upstream now id gc1 r, gc.Fetch upstream now id = some (gc1, r) →
      WF gc1 ∧ gc1.cache.length = gc.cache.length ∧ gc1.length = gc.length) ∧
    gc.GetAll = some ((gc.cache.map Prod.snd).filter (fun g => g.metadata.ready)) := by
  obtain ⟨hnd, hlen, hbound⟩ := hwf
  refine ⟨?_, ?_, ?_, ?_, ?_⟩
  · intro now id link
    unfold GameCache.Discover
    cases hload : mapLoad gc.cache id with
    | some g0 =>
      dsimp only
      exact ⟨⟨hnd, hlen, hbound⟩, fun h => by simp at h, fun _ => rfl⟩
    | none =>
      dsimp only
      by_cases hfull : gc.length = 255
      · rw [if_pos hfull]
        exact ⟨⟨hnd, hlen, hbound⟩, fun h => by simp at h, fun _ => rfl⟩
      · rw [if_neg hfull]
        have h1 := length_mapStore_absent gc.cache id (placeholderGame now id link) hload
        have h2 := keys_mapStore_absent gc.cache id (placeholderGame now id link) hload
        have hnotmem : id ∉ gc.cache.map Prod.fst := by
          intro hm
          obtain ⟨g, hg⟩ := exists_mapLoad_of_mem_keys gc.cache id hm
          rw [hload] at hg
          exact Option.noConfusion hg
        refine ⟨⟨?_, ?_, ?_⟩, fun _ => ⟨h1, by dsimp only; omega⟩, fun h => by simp at h⟩
        · dsimp only
          rw [h2]
          simp [List.nodup_append, hnd, hnotmem]
        · dsimp only
          omega
        · dsimp only
          omega
  · intro id habs
    unfold GameCache.Delete
    rw [habs]
  · intro id g hsome
    have hpos : 0 < gc.cache.length := by
      have hm := mem_keys_of_mapLoad gc.cache id g hsome
      have : gc.cache.map Prod.fst ≠ [] := fun he => by simp [he] at hm
      have := List.length_pos.mpr this
      simpa using this
    unfold GameCache.Delete
    rw [hsome]
    dsimp only
    have h1 := length_mapDelete_present gc.cache id g hsome
    have h2 : ((mapDelete gc.cache id).map Prod.fst).Sublist (gc.cache.map Prod.fst) :=
      (mapDelete_sublist gc.cache id).map Prod.fst
    refine ⟨⟨hnd.sublist h2, ?_, ?_⟩, ?_, ?_⟩ <;> (try simp only []) <;> omega
  · intro upstream now id gc1 r h
    obtain ⟨hl, hshape⟩ := Fetch_spec gc upstream now id gc1 r h
    rcases hshape with rfl | ⟨g0, ng, hg0, _, _, _, hcache⟩
    · exact ⟨⟨hnd, hlen, hbound⟩, rfl, rfl⟩
    · have h1 := length_mapStore_present gc.cache id ng g0 hg0
      have h2 := keys_mapStore_present gc.cache id ng g0 hg0
      refine ⟨⟨?_, ?_, ?_⟩, ?_, hl⟩
      · rw [hcache, h2]
        exact hnd
      · rw [hcache]
        omega
      · omega
      · rw [hcache]
        omega
  · unfold GameCache.GetAll
    by_cases hpos : gc.length > 0
    · rw [if_pos hpos]
      dsimp only
      rw [if_pos]
      calc ((gc.cache.map Prod.snd).filter (fun g => g.metadata.ready)).length
          ≤ (gc.cache.map Prod.snd).length := List.length_filter_le _ _
        _ = gc.cache.length := List.length_map _ _
        _ = gc.length := hlen.symm
    · rw [if_neg hpos]
      have hnil : gc.cache = [] := by
        have : gc.cache.length = 0 := by omega
        exact List.length_eq_zero.mp this
      rw [hnil]
      rfl

/-- Witness for C9: the invariant theorem applied to the concrete one-entry
ready cache; in particular its `GetAll` returns exactly the ready entries. -/
theorem length_tracks_size_witness :
    previewCache.GetAll =
      some ((previewCache.cache.map Prod.snd).filter (fun g => g.metadata.ready)) :=
  (length_tracks_size previewCache (by decide)).2.2.2.2

/-- C4. The link is write-once: a `Discover` that inserted (returned `true`)
leaves a placeholder holding the given link, a repeated `Discover` under the
same id returns `false` without touching the cache, and every `Fetch` that
returns without error stores (or keeps) a record whose link equals the one
already stored, because `FetchGame` re-writes `Link` from the stored link. -/
theorem link_write_once (gc : GameCache) (upstream : String → Option LiveGame)
    (now now2 now3 : Int) (id : Nat) (link link2 : String) :
    (∀ gc1 e, gc.Discover now id link = (gc1, true, e) →
      gc1.Discover now2 id link2 = (gc1, false, none) ∧
      mapLoad gc1.cache id = some (placeholderGame now id link)) ∧
    (∀ g gc1 b, mapLoad gc.cache id = some g →
      gc.Fetch upstream now3 id = some (gc1, Except.ok b) →
      ∃ g1, mapLoad gc1.cache id = some g1 ∧ g1.link = g.link) := by
  constructor
  · intro gc1 e h
    unfold GameCache.Discover at h
    cases hload : mapLoad gc.cache id with
    | some g0 =>
      rw [hload] at h
      dsimp only at h
      simp at h
    | none =>
      rw [hload] at h
      dsimp only at h
      by_cases hfull : gc.length = 255
      · rw [if_pos hfull] at h
        simp at h
      · rw [if_neg hfull] at h
        cases h
        constructor
        · unfold GameCache.Discover
          rw [mapLoad_mapStore_self]
        · exact mapLoad_mapStore_self _ _ _
  · intro g gc1 b hload h
    obtain ⟨hlen, hshape⟩ := Fetch_spec gc upstream now3 id gc1 (Except.ok b) h
    rcases hshape with rfl | ⟨g0, ng, hg0, hngl, _, _, hcache⟩
    · exact ⟨g, hload, rfl⟩
    · refine ⟨ng, ?_, ?_⟩
      · rw [hcache]
        exact mapLoad_mapStore_self _ _ _
      · rw [hg0] at hload
        cases hload
        exact hngl

/-- The empty cache. -/
def emptyCache : GameCache := { cache := [], length := 0 }

/-- The cache after discovering game `1` at instant `0`. -/
def discoveredCache : GameCache := (emptyCache.Discover 0 1 fixtureLink).1

/-- The cache after a changed `Fetch` of game `1` at instant `second`. -/
def refreshedCache : GameCache :=
  ((previewCache.Fetch fixtureUpstream second 1).map Prod.fst).getD previewCache

/-- Witness for C4: after a true `Discover`, a repeated `Discover` is a
no-op that returns `false`, the placeholder keeps the original link, and a
successful `Fetch` of the fixture cache stores a record with the stored
link. -/
theorem link_write_once_witness :
    (discoveredCache.Discover 1 1 "elsewhere" = (discoveredCache, false, none) ∧
      mapLoad discoveredCache.cache 1 = some (placeholderGame 0 1 fixtureLink)) ∧
    (∃ g1, mapLoad refreshedCache.cache 1 = some g1 ∧
      g1.link = storedPreviewGame.link) := by
  constructor
  · exact (link_write_once emptyCache fixtureUpstream 0 1 0 1 fixtureLink
      "elsewhere").1 discoveredCache none (by rfl)
  · exact (link_write_once previewCache fixtureUpstream 0 0 second 1 fixtureLink
      "elsewhere").2 storedPreviewGame refreshedCache true (by rfl) (by rfl)

/-- C5. `GetOne` on an absent id returns the zero game and `false` without
consulting upstream; `GetOne` on a present but unready entry performs a
synchronous fetch, and when that fetch fails upstream it returns the zero
game and `false` with the cache — hence the unready placeholder — exactly
unchanged. -/
theorem getone_absent_or_failed (gc : GameCache) (upstream : String → Option LiveGame)
    (now : Int) (id : Nat) :
    (mapLoad gc.cache id = none → gc.GetOne upstream now id = some (gc, Game.zero, false)) ∧
    (∀ g, mapLoad gc.cache id = some g → g.metadata.ready = false →
      upstream g.link = none →
      gc.GetOne upstream now id = some (gc, Game.zero, false)) := by
  constructor
  · intro habs
    unfold GameCache.GetOne
    rw [habs]
  · intro g hload hready hup
    have hfetch : gc.Fetch upstream now id = some (gc, Except.error ()) := by
      unfold GameCache.Fetch GameCache.GetLink
      rw [hload]
      dsimp only
      unfold FetchGame
      rw [hup]
    unfold GameCache.GetOne
    rw [hload]
    dsimp only
    rw [hready]
    simp only [Bool.false_eq_true, if_false]
    rw [hfetch]

/-- A cache holding only the unready placeholder for game `3`. -/
def unreadyCache : GameCache :=
  { cache := [(3, placeholderGame 0 3 fixtureLink)], length := 1 }

/-- An upstream oracle whose every request fails. -/
def failUpstream : String → Option LiveGame := fun _ => none

/-- Witness for C5: on the unready-placeholder cache, `GetOne` of the absent
id `9` and `GetOne` of the unready id `3` under a failing upstream both
return the zero game and `false` with the cache unchanged. -/
theorem getone_absent_or_failed_witness :
    unreadyCache.GetOne failUpstream 0 9 = some (unreadyCache, Game.zero, false) ∧
    unreadyCache.GetOne failUpstream 0 3 = some (unreadyCache, Game.zero, false) := by
  constructor
  · exact (getone_absent_or_failed unreadyCache failUpstream 0 9).1 (by rfl)
  · exact (getone_absent_or_failed unreadyCache failUpstream 0 3).2
      (placeholderGame 0 3 fixtureLink) (by rfl) (by rfl) (by rfl)

/-- Deleting one key preserves the binding of every other key. -/
theorem mapLoad_Delete_ne (gc : GameCache) (k id : Nat) (g : Game)
    (hne : id ≠ k) (hload : mapLoad gc.cache id = some g) :
    mapLoad (gc.Delete k).cache id = some g := by
  unfold GameCache.Delete
  cases hd : mapLoad gc.cache k with
  | none => exact hload
  | some g0 =>
    dsimp only
    rw [mapLoad_mapDelete_ne _ _ _ hne]
    exact hload

/-- One `Audit` step on an entry keyed `kv.1 ≠ id` keeps the binding of `id`
intact and only ever appends `kv.1` to the change lists. -/
theorem auditStep_preserves (upstream : String → Option LiveGame) (now : Int)
    (id : Nat) (g : Game)
    (acc acc1 : GameCache × List Nat × List Nat × List Nat) (kv : Nat × Game)
    (hne : kv.1 ≠ id)
    (h : auditStep upstream now acc kv = some acc1)
    (hload : mapLoad acc.1.cache id = some g) :
    mapLoad acc1.1.cache id = some g ∧
    (∀ x, x ∈ acc1.2.1 → x ∈ acc.2.1 ∨ x = kv.1) ∧
    (∀ x, x ∈ acc1.2.2.1 → x ∈ acc.2.2.1 ∨ x = kv.1) ∧
    (∀ x, x ∈ acc1.2.2.2 → x ∈ acc.2.2.2 ∨ x = kv.1) := by
  have happ : ∀ (l : List Nat) (x : Nat), x ∈ l ++ [kv.1] → x ∈ l ∨ x = kv.1 := by
    intro l x hx
    rcases List.mem_append.mp hx with hx | hx
    · exact Or.inl hx
    · exact Or.inr (List.mem_singleton.mp hx)
  obtain ⟨gc, updated, removed, failed⟩ := acc
  unfold auditStep at h
  dsimp only at h hload ⊢
  split at h
  · cases hf : gc.Fetch upstream now kv.1 with
    | none => rw [hf] at h; exact Option.noConfusion h
    | some p =>
      rw [hf] at h
      obtain ⟨gc1, r⟩ := p
      obtain ⟨hlen, hshape⟩ := Fetch_spec gc upstream now kv.1 gc1 r hf
      have hpres : mapLoad gc1.cache id = some g := by
        rcases hshape with rfl | ⟨g0, ng, hg0, _, _, _, hcache⟩
        · exact hload
        · rw [hcache, mapLoad_mapStore_ne _ _ _ _ (fun he => hne he.symm)]
          exact hload
      cases r with
      | error e =>
        dsimp only at h
        cases h
        exact ⟨hpres, fun x hx => Or.inl hx, fun x hx => Or.inl hx, happ _⟩
      | ok dataChanged =>
        dsimp only at h
        split at h
        · cases h
          exact ⟨hpres, happ _, fun x hx => Or.inl hx, fun x hx => Or.inl hx⟩
        · cases h
          exact ⟨hpres, fun x hx => Or.inl hx, fun x hx => Or.inl hx, fun x hx => Or.inl hx⟩
  · split at h
    · cases h
      refine ⟨?_, fun x hx => Or.inl hx, happ _, fun x hx => Or.inl hx⟩
      exact mapLoad_Delete_ne gc kv.1 id g (fun he => hne he.symm) hload
    · cases h
      exact ⟨hload, fun x hx => Or.inl hx, fun x hx => Or.inl hx, fun x hx => Or.inl hx⟩

/-- Folding `Audit` steps over entries none of which is keyed `id` keeps the
binding of `id` and keeps `id` out of all three change lists. -/
theorem audit_fold_preserves (upstream : String → Option LiveGame) (now : Int)
    (id : Nat) (g : Game) :
    ∀ (l : List (Nat × Game)) (acc res : GameCache × List Nat × List Nat × List Nat),
      (∀ kv ∈ l, kv.1 ≠ id) →
      mapLoad acc.1.cache id = some g →
      id ∉ acc.2.1 → id ∉ acc.2.2.1 → id ∉ acc.2.2.2 →
      l.foldlM (auditStep upstream now) acc = some res →
      mapLoad res.1.cache id = some g ∧
        id ∉ res.2.1 ∧ id ∉ res.2.2.1 ∧ id ∉ res.2.2.2 := by
  intro l
  induction l with
  | nil =>
    intro acc res hl hload h1 h2 h3 h
    simp only [List.foldlM_nil] at h
    cases h
    exact ⟨hload, h1, h2, h3⟩
  | cons kv t ih =>
    intro acc res hl hload h1 h2 h3 h
    simp only [List.foldlM_cons] at h
    cases hstep : auditStep upstream now acc kv with
    | none =>
      rw [hstep] at h
      exact Option.noConfusion h
    | some acc1 =>
      rw [hstep] at h
      have hkv : kv.1 ≠ id := hl kv (List.mem_cons_self kv t)
      obtain ⟨hp, hu, hr, hf⟩ :=
        auditStep_preserves upstream now id g acc acc1 kv hkv hstep hload
      refine ih acc1 res (fun kv2 hm => hl kv2 (List.mem_cons_of_mem _ hm)) hp ?_ ?_ ?_ h
      · intro hmem
        rcases hu id hmem with hx | hx
        · exact h1 hx
        · exact hkv hx.symm
      · intro hmem
        rcases hr id hmem with hx | hx
        · exact h2 hx
        · exact hkv hx.symm
      · intro hmem
        rcases hf id hmem with hx | hx
        · exact h3 hx
        · exact hkv hx.symm

/-- C10. An `Audit` sweep never refreshes, deletes, or reports a
discovered-but-unready entry: its zero-valued state has an empty
`status.general` that matches neither the refresh nor the prune conditions,
so the placeholder stays in the cache and its id appears in none of
`updated`, `removed`, `failed`. -/
theorem audit_skips_unready_placeholder
    (gc : GameCache) (upstream : String → Option LiveGame) (now : Int)
    (id : Nat) (g : Game)
    (hnodup : (gc.cache.map Prod.fst).Nodup)
    (hmem : (id, g) ∈ gc.cache)
    (hzero : g.state.status.general = "")
    (res : GameCache × List Nat × List Nat × List Nat)
    (h : gc.Audit upstream now = some res) :
    id ∉ res.2.1 ∧ id ∉ res.2.2.1 ∧ id ∉ res.2.2.2 ∧
    mapLoad res.1.cache id = some g := by
  obtain ⟨l1, l2, hca⟩ := List.append_of_mem hmem
  have hload : mapLoad gc.cache id = some g := mapLoad_of_mem_nodup _ _ _ hnodup hmem
  have hnd2 := hnodup
  rw [hca] at hnd2
  simp only [List.map_append, List.map_cons] at hnd2
  rw [List.nodup_append] at hnd2
  obtain ⟨hn1, hn2, hdisj⟩ := hnd2
  rw [List.nodup_cons] at hn2
  have hl1 : ∀ kv ∈ l1, kv.1 ≠ id := by
    intro kv hm he
    exact hdisj (List.mem_map.mpr ⟨kv, hm, rfl⟩) (he ▸ List.mem_cons_self id _)
  have hl2 : ∀ kv ∈ l2, kv.1 ≠ id := by
    intro kv hm he
    exact hn2.1 (he ▸ List.mem_map.mpr ⟨kv, hm, rfl⟩)
  unfold GameCache.Audit at h
  rw [hca, List.foldlM_append] at h
  cases hm1 : l1.foldlM (auditStep upstream now) (gc, [], [], []) with
  | none => rw [hm1] at h; exact Option.noConfusion h
  | some accm =>
    rw [hm1] at h
    obtain ⟨hpm, hu1, hr1, hf1⟩ :=
      audit_fold_preserves upstream now id g l1 (gc, [], [], []) accm hl1 hload
        (by simp) (by simp) (by simp) hm1
    have hcond1 : ¬((g.state.status.general = "Live" ∧
          now - g.metadata.timestamp > 5 * second) ∨
        (g.state.status.general = "Preview" ∧
          now - g.metadata.timestamp > 15 * minute) ∨
        (g.state.status.general = "Final" ∧
          now - g.metadata.timestamp > 30 * minute)) := by
      rw [hzero]
      rintro (⟨he, _⟩ | ⟨he, _⟩ | ⟨he, _⟩) <;> exact absurd he (by decide)
    have hcond2 : ¬((g.state.status.general = "Final" ∧
          now - g.state.status.startTime.dateTime > 15 * hour) ∨
        (g.state.status.general = "Preview" ∧
          g.metadata.timestamp - now > 24 * hour)) := by
      rw [hzero]
      rintro (⟨he, _⟩ | ⟨he, _⟩) <;> exact absurd he (by decide)
    have hstep : auditStep upstream now accm (id, g) = some accm := by
      obtain ⟨gcm, um, rm, fm⟩ := accm
      unfold auditStep
      dsimp only
      rw [if_neg hcond1, if_neg hcond2]
    have h2 : l2.foldlM (auditStep upstream now) accm = some res := by
      have h3 : ((id, g) :: l2).foldlM (auditStep upstream now) accm = some res := h
      rw [List.foldlM_cons, hstep] at h3
      exact h3
    obtain ⟨hp, hu, hr, hf⟩ :=
      audit_fold_preserves upstream now id g l2 accm res hl2 hpm hu1 hr1 hf1 h2
    exact ⟨hu, hr, hf, hp⟩

/-- Witness for C10: auditing the cache that holds only the unready
placeholder for game `3` (with a failing upstream, which is never consulted)
reports nothing and keeps the placeholder. -/
theorem audit_skips_unready_placeholder_witness :
    ((3 : Nat) ∉ ([] : List Nat)) ∧ ((3 : Nat) ∉ ([] : List Nat)) ∧
    ((3 : Nat) ∉ ([] : List Nat)) ∧
    mapLoad unreadyCache.cache 3 = some (placeholderGame 0 3 fixtureLink) :=
  audit_skips_unready_placeholder unreadyCache failUpstream 0 3
    (placeholderGame 0 3 fixtureLink) (by decide) (by decide) (by rfl)
    (unreadyCache, [], [], []) (by rfl)

/-! ## Broadcaster lemmas -/

/-- Closed form of the `Broadcast` fold: it appends the per-subscriber
delivery results in order and counts the successful sends. -/
theorem broadcast_fold (msg : Update) (l : List (Nat × List Update))
    (acc : List (Nat × List Update) × Nat) :
    l.foldl (fun acc c =>
        if c.2.length < queueCapacity then
          (acc.1 ++ [(c.1, c.2 ++ [msg])], acc.2 + 1)
        else
          (acc.1 ++ [c], acc.2)) acc =
      (acc.1 ++ l.map (fun c =>
          if c.2.length < queueCapacity then (c.1, c.2 ++ [msg]) else c),
        acc.2 + l.countP (fun c => decide (c.2.length < queueCapacity))) := by
  induction l generalizing acc with
  | nil => simp
  | cons c t ih =>
    simp only [List.foldl_cons, List.map_cons, List.countP_cons]
    by_cases hc : c.2.length < queueCapacity
    · rw [if_pos hc, ih, if_pos hc]
      refine Prod.ext ?_ ?_
      · simp
      · simp [hc]
        omega
    · rw [if_neg hc, ih, if_neg hc]
      refine Prod.ext ?_ ?_
      · simp
      · simp [hc]

/-- The value of `Broadcast`: queues with a free slot get the message
appended, full queues are untouched, the count is the number of successful
sends, and the subscriber table and counter are unchanged. -/
theorem Broadcast_eq (b : Broadcaster) (msg : Update) :
    b.Broadcast msg =
      ({ b with clients := b.clients.map (fun c =>
            if c.2.length < queueCapacity then (c.1, c.2 ++ [msg]) else c) },
        b.clients.countP (fun c => decide (c.2.length < queueCapacity))) := by
  unfold Broadcaster.Broadcast
  dsimp only
  rw [broadcast_fold]
  simp

/-- In `l.zip (l.map f)` every pair relates an element to its image. -/
theorem zip_map_snd {α β : Type _} (f : α → β) (l : List α) (p : α × β)
    (hp : p ∈ l.zip (l.map f)) : p.2 = f p.1 := by
  induction l with
  | nil => simp at hp
  | cons a t ih =>
    simp only [List.map_cons, List.zip_cons_cons, List.mem_cons] at hp
    rcases hp with rfl | hp
    · rfl
    · exact ih hp

/-- C8. `Broadcast` sends to at most the registered subscribers: the sent
count is bounded by the subscriber count, no subscriber is added or removed
and the atomic counter is untouched, a subscriber whose 16-slot queue is
full keeps its queue exactly as it was, and every subscriber with a free
slot receives the message at the back of its queue. -/
theorem broadcast_backpressure (b : Broadcaster) (msg : Update) :
    (b.Broadcast msg).2 ≤ b.clients.length ∧
    (b.Broadcast msg).1.clients.length = b.clients.length ∧
    (b.Broadcast msg).1.count = b.count ∧
    ∀ p ∈ b.clients.zip (b.Broadcast msg).1.clients,
      (queueCapacity ≤ p.1.2.length → p.2 = p.1) ∧
      (p.1.2.length < queueCapacity → p.2 = (p.1.1, p.1.2 ++ [msg])) := by
  rw [Broadcast_eq]
  refine ⟨List.countP_le_length _, by simp, rfl, ?_⟩
  intro p hp
  have hz := zip_map_snd
    (fun c => if c.2.length < queueCapacity then (c.1, c.2 ++ [msg]) else c)
    b.clients p hp
  constructor
  · intro hfull
    simp only [hz]
    rw [if_neg (by omega)]
  · intro hsp
    simp only [hz]
    rw [if_pos hsp]

/-- A full 16-slot queue. -/
def fullQueue : List Update := List.replicate 16 { event := "update", data := "stale" }

/-- Two subscribers: client `1` with a full queue, client `2` with an empty
one. -/
def twoClients : Broadcaster := { clients := [(1, fullQueue), (2, [])], count := 2 }

/-- The message broadcast in the witness scenario. -/
def addMsg : Update := { event := "add", data := "payload" }

/-- Witness for C8: broadcasting to the two-subscriber fixture sends at most
two messages, leaves the full subscriber untouched and delivers to the one
with room. -/
theorem broadcast_backpressure_witness :
    (twoClients.Broadcast addMsg).2 ≤ twoClients.clients.length ∧
    ((1, fullQueue) : Nat × List Update) = (1, fullQueue) ∧
    ((2, [addMsg]) : Nat × List Update) = (2, [] ++ [addMsg]) := by
  have h := broadcast_backpressure twoClients addMsg
  refine ⟨h.1, ?_, ?_⟩
  · exact (h.2.2.2 ((1, fullQueue), (1, fullQueue)) (by decide)).1 (by decide)
  · exact (h.2.2.2 ((2, []), (2, [addMsg])) (by decide)).2 (by decide)

/-! ## Order lemmas for the snapshot sort -/

/-- The claim's sort order, as a relation: primary key `statusOrder`
(`Live < Final < Preview`), secondary key `start_time` ascending. -/
def keyLE (g1 g2 : Game) : Prop :=
  statusOrder g1.state.status.general < statusOrder g2.state.status.general ∨
  (statusOrder g1.state.status.general = statusOrder g2.state.status.general ∧
    g1.state.status.startTime.dateTime ≤ g2.state.status.startTime.dateTime)

/-- The comparator is the strict lexicographic order on
`(statusOrder, start_time)`. -/
theorem gamesLess_iff (g1 g2 : Game) :
    gamesLess g1 g2 = true ↔
      (statusOrder g1.state.status.general < statusOrder g2.state.status.general ∨
        (statusOrder g1.state.status.general = statusOrder g2.state.status.general ∧
          g1.state.status.startTime.dateTime < g2.state.status.startTime.dateTime)) := by
  unfold gamesLess
  by_cases h : statusOrder g1.state.status.general -
      statusOrder g2.state.status.general ≠ 0
  · rw [if_pos h]
    simp only [decide_eq_true_eq]
    omega
  · rw [if_neg h]
    simp only [decide_eq_true_eq]
    omega

theorem gamesLess_asymm {g1 g2 : Game} (h : gamesLess g1 g2 = true) :
    gamesLess g2 g1 = false := by
  cases hb : gamesLess g2 g1
  · rfl
  · rw [gamesLess_iff] at h
    have hb2 := (gamesLess_iff g2 g1).mp hb
    rcases h with h | ⟨h1, h2⟩ <;> rcases hb2 with hb2 | ⟨hb3, hb4⟩ <;> omega

theorem gamesLess_trans {g1 g2 g3 : Game} (h1 : gamesLess g1 g2 = true)
    (h2 : gamesLess g2 g3 = true) : gamesLess g1 g3 = true := by
  rw [gamesLess_iff] at h1 h2 ⊢
  rcases h1 with h1 | ⟨h1a, h1b⟩ <;> rcases h2 with h2 | ⟨h2a, h2b⟩
  · exact Or.inl (by omega)
  · exact Or.inl (by omega)
  · exact Or.inl (by omega)
  · exact Or.inr ⟨by omega, by omega⟩

/-- Not being below in the comparator is exactly the claim's
primary-then-secondary order. -/
theorem keyLE_of_not_less {g1 g2 : Game} (h : gamesLess g2 g1 = false) :
    keyLE g1 g2 := by
  have h2 : ¬(gamesLess g2 g1 = true) := by simp [h]
  rw [gamesLess_iff] at h2
  push_neg at h2
  obtain ⟨ha, hb⟩ := h2
  unfold keyLE
  by_cases he : statusOrder g1.state.status.general =
      statusOrder g2.state.status.general
  · exact Or.inr ⟨he, hb he.symm⟩
  · exact Or.inl (by omega)

theorem insertSorted_perm (x : Game) (l : List Game) :
    (insertSorted x l).Perm (x :: l) := by
  induction l with
  | nil => exact List.Perm.refl _
  | cons y t ih =>
    unfold insertSorted
    by_cases h : gamesLess x y
    · rw [if_pos h]
    · rw [if_neg h]
      exact (ih.cons y).trans (List.Perm.swap x y t)

theorem insertSorted_pairwise (x : Game) (l : List Game)
    (hl : l.Pairwise (fun a b => gamesLess b a = false)) :
    (insertSorted x l).Pairwise (fun a b => gamesLess b a = false) := by
  induction l with
  | nil => simp [insertSorted]
  | cons y t ih =>
    rw [List.pairwise_cons] at hl
    obtain ⟨hy, ht⟩ := hl
    unfold insertSorted
    by_cases h : gamesLess x y = true
    · rw [if_pos h]
      rw [List.pairwise_cons]
      refine ⟨?_, List.pairwise_cons.mpr ⟨hy, ht⟩⟩
      intro z hz
      rcases List.mem_cons.mp hz with rfl | hz
      · exact gamesLess_asymm h
      · cases hzx : gamesLess z x
        · rfl
        · have htr := gamesLess_trans hzx h
          rw [hy z hz] at htr
          exact Bool.noConfusion htr
    · rw [Bool.not_eq_true] at h
      rw [if_neg (by simp [h])]
      rw [List.pairwise_cons]
      refine ⟨?_, ih ht⟩
      intro z hz
      rcases List.mem_cons.mp ((insertSorted_perm x t).mem_iff.mp hz) with rfl | hz2
      · exact h
      · exact hy z hz2

theorem stableSort_perm (l : List Game) : (stableSortGamesSpec l).Perm l := by
  suffices h : ∀ (l acc : List Game),
      (l.foldl (fun acc x => insertSorted x acc) acc).Perm (acc ++ l) by
    simpa using h l []
  intro l
  induction l with
  | nil => intro acc; simp
  | cons x t ih =>
    intro acc
    simp only [List.foldl_cons]
    refine (ih (insertSorted x acc)).trans ?_
    refine ((insertSorted_perm x acc).append_right t).trans ?_
    exact List.perm_middle.symm

theorem stableSort_sorted (l : List Game) :
    (stableSortGamesSpec l).Pairwise (fun a b => gamesLess b a = false) := by
  suffices h : ∀ (l acc : List Game),
      acc.Pairwise (fun a b => gamesLess b a = false) →
      (l.foldl (fun acc x => insertSorted x acc) acc).Pairwise
        (fun a b => gamesLess b a = false) from h l [] (by simp)
  intro l
  induction l with
  | nil => intro acc hacc; simpa using hacc
  | cons x t ih =>
    intro acc hacc
    simp only [List.foldl_cons]
    exact ih _ (insertSorted_pairwise x acc hacc)

/-- Two ready `Preview` games equal on both sort keys, differing only in id. -/
def tiedA : Game :=
  { Game.zero with
      id := 1
      state :=
        { State.zero with
            status := { general := "Preview", detailed := "Scheduled"
                        startTime := { dateTime := 0 } } } }

/-- The second tied game. -/
def tiedB : Game :=
  { Game.zero with
      id := 2
      state :=
        { State.zero with
            status := { general := "Preview", detailed := "Scheduled"
                        startTime := { dateTime := 0 } } } }

/-- C6, counterexample. `sortGames` sorts with `sort.Slice`, whose contract
guarantees only a sorted permutation and is documented as unstable. The
output `[tiedB, tiedA]` satisfies that contract for the input
`[tiedA, tiedB]` (the two games are equal on both sort keys), yet it is not
the stable result, which keeps the input order — so the claim that ties keep
their relative input order is not guaranteed by the code. -/
theorem sort_not_stable_counterexample :
    sortGamesPost [tiedA, tiedB] [tiedB, tiedA] ∧
    [tiedB, tiedA] ≠ stableSortGamesSpec [tiedA, tiedB] := by
  refine ⟨⟨by decide, by decide⟩, by decide⟩

/-- C6, amended. Every list the snapshot path can return is a permutation of
the cache's ready games that is sorted by the primary key
`Live < Final < Preview` and the secondary key `start_time` ascending; games
equal on both keys may appear in either order (`sort.Slice` is not
guaranteed stable), and the spec's stable order is itself one admissible
outcome of the contract. -/
theorem sort_initial_snapshot_order (input output : List Game)
    (h : sortGamesPost input output) :
    output.Perm input ∧ output.Pairwise keyLE ∧
    sortGamesPost input (stableSortGamesSpec input) := by
  refine ⟨h.1, ?_, stableSort_perm input, stableSort_sorted input⟩
  exact h.2.imp (fun hab => keyLE_of_not_less hab)

/-- Witness for C6: the amended theorem applied to the tied two-game input
shows the reversed output is still sorted under both keys. -/
theorem sort_initial_snapshot_order_witness :
    ([tiedB, tiedA] : List Game).Pairwise keyLE :=
  (sort_initial_snapshot_order [tiedA, tiedB] [tiedB, tiedA]
    ⟨by decide, by decide⟩).2.1

/-! ## The batter corrections -/

/-- If no upstream player carries id `0`, the seeded sentinel survives the
player loop. -/
theorem lastPlayerWithID_eq_none (i : Nat) (ps : List PlayerNamed)
    (h : ∀ p ∈ ps, p.id ≠ i) : lastPlayerWithID ps i = none := by
  have hgen : ∀ (ps : List PlayerNamed) (acc : Option PlayerNamed),
      (∀ p ∈ ps, p.id ≠ i) →
      ps.foldl (fun acc p => if p.id = i then some p else acc) acc = acc := by
    intro ps
    induction ps with
    | nil => intro acc _; rfl
    | cons q t ih =>
      intro acc hq
      simp only [List.foldl_cons]
      rw [if_neg (hq q (List.mem_cons_self q t))]
      exact ih acc (fun p hm => hq p (List.mem_cons_of_mem _ hm))
  exact hgen ps none h

theorem playersZero_sentinel (ps : List PlayerNamed)
    (hp : ∀ p ∈ ps, p.id ≠ 0) : playersZero ps = sentinelPlayer := by
  unfold playersZero
  rw [lastPlayerWithID_eq_none 0 ps hp]

/-- The two correction blocks of `FetchGame`, provided `players[0]` is the
sentinel: whenever the corrected state is non-`Live`, has three outs, or has
its batter on a base, the batter is the sentinel; and a `Final` corrected
state has the sentinel batter and zero outs. -/
theorem correctState_spec (ps : List PlayerNamed) (s : State)
    (hsent : playersZero ps = sentinelPlayer) :
    (((correctState ps s).status.general ≠ "Live" ∨ (correctState ps s).outs = 3 ∨
      (correctState ps s).diamond.batter = (correctState ps s).diamond.first ∨
      (correctState ps s).diamond.batter = (correctState ps s).diamond.second ∨
      (correctState ps s).diamond.batter = (correctState ps s).diamond.third) →
      (correctState ps s).diamond.batter = sentinelPlayer) ∧
    ((correctState ps s).status.general = "Final" →
      (correctState ps s).diamond.batter = sentinelPlayer ∧
      (correctState ps s).outs = 0) := by
  unfold correctState
  by_cases hc : (s.status.general ≠ "Live" ∨ s.outs = 3 ∨
      s.diamond.batter = s.diamond.first ∨ s.diamond.batter = s.diamond.second ∨
      s.diamond.batter = s.diamond.third)
  · rw [if_pos hc]
    dsimp only
    by_cases hf : s.status.general = "Final"
    · rw [if_pos hf]
      exact ⟨fun _ => hsent, fun _ => ⟨hsent, rfl⟩⟩
    · rw [if_neg hf]
      exact ⟨fun _ => hsent, fun hgf => absurd hgf hf⟩
  · rw [if_neg hc]
    push_neg at hc
    obtain ⟨hlive, houts, hb1, hb2, hb3⟩ := hc
    have hnf : ¬(s.status.general = "Final") := by rw [hlive]; decide
    rw [if_neg hnf]
    constructor
    · intro hcond
      rcases hcond with h | h | h | h | h
      · exact absurd hlive h
      · exact absurd h houts
      · exact absurd h hb1
      · exact absurd h hb2
      · exact absurd h hb3
    · intro hgf
      exact absurd hgf hnf

/-- C7, amended. For every game the projection produces, provided no
upstream player carries id `0` (which would overwrite the seeded sentinel in
the `players` map): if its status is not `Live`, or its outs equal 3, or its
batter equals a base occupant, the batter is the sentinel `(0, "TBD")`; and
if its status is `Final` the batter is the sentinel and the outs are forced
to 0. -/
theorem batter_correction (lg : LiveGame) (link : String) (now : Int) (g : Game)
    (hp : ∀ p ∈ lg.gameData.players, p.id ≠ 0)
    (hg : projectGame lg link now = some g) :
    ((g.state.status.general ≠ "Live" ∨ g.state.outs = 3 ∨
      g.state.diamond.batter = g.state.diamond.first ∨
      g.state.diamond.batter = g.state.diamond.second ∨
      g.state.diamond.batter = g.state.diamond.third) →
      g.state.diamond.batter = sentinelPlayer) ∧
    (g.state.status.general = "Final" →
      g.state.diamond.batter = sentinelPlayer ∧ g.state.outs = 0) := by
  have hsent := playersZero_sentinel lg.gameData.players hp
  simp only [projectGame] at hg
  split at hg
  · cases hg
    exact correctState_spec _ _ hsent
  · exact Option.noConfusion hg

/-- The fixture body with one upstream player whose id is `0`, overwriting
the seeded sentinel in the `players` map. -/
def zedBody : LiveGame :=
  { previewBody with
      gameData :=
        { previewBody.gameData with
            players := [{ id := 0, fullName := "Zed", primaryNumber := "9" }] } }

/-- C7, counterexample. The claim promises the sentinel `(0, "TBD")` for any
non-`Live` projected game, but when upstream lists a player with id `0` the
loop `players[p.ID] = …` overwrites the seeded sentinel: the projected
`Preview` game's batter is `(0, "Zed")`, not the sentinel. -/
theorem batter_not_sentinel_counterexample :
    (projectGame zedBody fixtureLink 0).map
        (fun g => (g.state.status.general, g.state.diamond.batter)) =
      some ("Preview", { id := 0, name := "Zed", number := "9" }) ∧
    ("Preview" : String) ≠ "Live" ∧
    ({ id := 0, name := "Zed", number := "9" } : Player) ≠ sentinelPlayer := by
  refine ⟨by rfl, by decide, by decide⟩

/-- Witness for C7: the amended theorem applied to the fixture body (whose
player list is empty) shows the projected non-`Live` game's batter is the
sentinel. -/
theorem batter_correction_witness :
    storedPreviewGame.state.diamond.batter = sentinelPlayer :=
  (batter_correction previewBody fixtureLink 0 storedPreviewGame
      (by intro p hp2; simp [previewBody] at hp2) (by rfl)).1 (Or.inl (by decide))

end Gameday